import Mathlib

/-!
Verification of the inflection-point analysis core (`main.py`).

Shallow embedding of the analysis backend of the data-science portal:
monthly/annual aggregation, the three peak/valley detection methods
(`Original (find_peaks)`, `Mathematical Strict`, `Hybrid (3-4 months)`),
method/mode normalization, the company-row filter, and the payload builder.

Numeric values (numpy float64 call counts and percentages) are modelled as
rationals `ℚ`, so the "±floating tolerance" statements of the spec become
exact identities.  Machine indices are `Nat`.  The scipy and numpy routines
the code calls (`find_peaks`, `argsort`, `sort`, `mean`) are embedded from
their reference algorithms at the concrete argument sizes the program uses:
numpy's default sort on arrays below the small-sort threshold (16 elements —
a 12-month series) runs plain insertion sort and is therefore stable, which
is how `argsort` and `sort` are rendered here.
-/

namespace DSPortal

/-- A Python cell value as it can appear in the `company_id` column of the
cached dataframe: BigQuery delivers `int64`, but the spec notes identifiers
"may arrive as int or string". -/
inductive CellVal where
  | intV (n : Int)
  | strV (s : String)
  deriving DecidableEq, Repr

/-- Python `str(v)`: decimal rendering for ints, identity on strings. -/
def pyStr : CellVal → String
  | .intV n => toString n
  | .strV s => s

/-! ## numpy sorting primitives

`np.argsort` with the default kind on a 12-element array sorts with
insertion sort (numpy's introsort switches to insertion sort below the
small-sort threshold), which is stable: equal values keep their original
index order.  `argInsert` inserts a later index after all indices holding a
value `≤` its own, exactly as insertion sort does. -/

/-- One insertion-sort step of `np.argsort`: place index `i` (arriving after
every index already in the accumulator) behind all indices whose value is
`≤` its own. -/
def argInsert (x : List ℚ) (i : Nat) : List Nat → List Nat
  | [] => [i]
  | j :: rest =>
      if x.getD j 0 ≤ x.getD i 0 then j :: argInsert x i rest
      else i :: j :: rest

/-- `np.argsort(x)` (stable at this array size): indices `0,…,n-1` sorted by
ascending value, ties kept in index order. -/
def argsort (x : List ℚ) : List Nat :=
  (List.range x.length).foldl (fun acc i => argInsert x i acc) []

/-- Insertion step for `np.sort` on an index array. -/
def natInsert (i : Nat) : List Nat → List Nat
  | [] => [i]
  | j :: rest => if j ≤ i then j :: natInsert i rest else i :: j :: rest

/-- `np.sort` on a (small) index array: ascending insertion sort. -/
def natSort (l : List Nat) : List Nat :=
  l.foldl (fun acc i => natInsert i acc) []

/-! ## Mathematical Strict detection (`detect_peaks_valleys_quartiles`) -/

/-- `detect_peaks_valleys_quartiles(calls)` from `main.py`: on an empty
array return two empty arrays; otherwise argsort the values, the first two
ranks (`sorted_indices[:2]`, re-sorted ascending) are the valleys and the
last two ranks (`sorted_indices[-2:]`, re-sorted ascending) are the peaks. -/
def detect_peaks_valleys_quartiles (calls : List ℚ) : List Nat × List Nat :=
  if calls.length = 0 then ([], [])
  else
    let sorted_indices := argsort calls
    let valleys := natSort (sorted_indices.take 2)
    let peaks := natSort (sorted_indices.drop (sorted_indices.length - 2))
    (peaks, valleys)

/-! ## scipy `find_peaks`

`detect_inflection_points` calls `scipy.signal.find_peaks(series, height=h,
distance=d)`.  That routine (for the keyword arguments the program uses)
is: find the interior local maxima of the series with `_local_maxima_1d`
(a strictly higher sample than its closest non-equal neighbours on both
sides; a flat plateau is reported at its midpoint; the first and last
samples are never candidates), keep those whose value is at least `height`,
then drop peaks closer than `distance` samples to a higher-priority kept
peak with `_select_by_peak_distance` (highest peak first).  The loops are
written here with an explicit fuel argument; the callers pass enough fuel
for the scans to run to completion, which the lemmas below establish. -/

/-- The inner scan of `_local_maxima_1d`: starting at `iAhead`, advance
while the sample equals the plateau value `v` and the index is below
`iMax = n - 1`; return the first index where the scan stops. -/
def findAhead (x : List ℚ) (iMax : Nat) (v : ℚ) : Nat → Nat → Nat
  | 0, iAhead => iAhead
  | fuel + 1, iAhead =>
      if iAhead < iMax ∧ x.getD iAhead 0 = v then findAhead x iMax v fuel (iAhead + 1)
      else iAhead

/-- The outer loop of `_local_maxima_1d`: `i` runs from `1` to `iMax - 1`;
on a rising edge `x[i-1] < x[i]` the plateau `[i, a)` of samples equal to
`x[i]` is scanned, and if it ends in a falling edge `x[a] < x[i]` the
midpoint `(i + (a-1)) / 2` is recorded and the scan resumes after `a`. -/
def lmLoop (x : List ℚ) (iMax : Nat) : Nat → Nat → List Nat
  | 0, _ => []
  | fuel + 1, i =>
      if i < iMax then
        if x.getD (i - 1) 0 < x.getD i 0 then
          if x.getD (findAhead x iMax (x.getD i 0) (fuel + 1) (i + 1)) 0 < x.getD i 0 then
            (i + (findAhead x iMax (x.getD i 0) (fuel + 1) (i + 1) - 1)) / 2 ::
              lmLoop x iMax fuel (findAhead x iMax (x.getD i 0) (fuel + 1) (i + 1) + 1)
          else lmLoop x iMax fuel (i + 1)
        else lmLoop x iMax fuel (i + 1)
      else []

/-- scipy `_local_maxima_1d(x)`: the midpoints of all interior maximal
plateaus, in increasing order. -/
def localMaxima (x : List ℚ) : List Nat :=
  lmLoop x (x.length - 1) x.length 1

/-- One processed peak of `_select_by_peak_distance`: a kept peak `j`
removes every other peak strictly closer than `dist` samples.  (scipy scans
left and right from `j` stopping at the first peak `dist` or more away;
since the peak positions are increasing that scan removes exactly the
peaks with `|position - position_j| < dist`, which is how the update is
written here.) -/
def markNeighbors (peaks : List Nat) (j : Nat) (dist : Nat) (keep : Nat → Bool) :
    Nat → Bool := fun k =>
  if k ≠ j ∧ ((peaks.getD j 0 : Int) - peaks.getD k 0).natAbs < dist then false
  else keep k

/-- The main loop of `_select_by_peak_distance`: process the peaks from
highest to lowest priority; a peak already removed is skipped, a surviving
peak removes its too-close neighbours. -/
def selectLoop (peaks : List Nat) (dist : Nat) : List Nat → (Nat → Bool) → (Nat → Bool)
  | [], keep => keep
  | j :: rest, keep =>
      if keep j then selectLoop peaks dist rest (markNeighbors peaks j dist keep)
      else selectLoop peaks dist rest keep

/-- scipy `_select_by_peak_distance(peaks, priority, distance)`: the keep
mask after processing the peaks in decreasing priority order
(`np.argsort(priority)` traversed backwards; at the program's array sizes
numpy's argsort is the stable insertion sort embedded above). -/
def selectByPeakDistance (peaks : List Nat) (priority : List ℚ) (dist : Nat) :
    Nat → Bool :=
  selectLoop peaks dist (argsort priority).reverse (fun _ => true)

/-- scipy `find_peaks(x, height, distance)` for the argument shapes used by
`main.py`: interior local maxima, filtered by `height <= x[peak]`, then by
minimal peak distance. -/
def find_peaks (x : List ℚ) (height : ℚ) (distance : Nat) : List Nat :=
  let candidates := (localMaxima x).filter (fun p => height ≤ x.getD p 0)
  let keep := selectByPeakDistance candidates
    (candidates.map (fun p => x.getD p 0)) distance
  ((List.range candidates.length).filter (fun k => keep k)).map
    (fun k => candidates.getD k 0)

/-- Declarative description of what `_local_maxima_1d` records: a maximal
run `[l, r]` of equal samples, interior to the series, with a strict rise
on its left and a strict fall on its right. -/
def IsPlateauMax (x : List ℚ) (l r : Nat) : Prop :=
  1 ≤ l ∧ l ≤ r ∧ r + 2 ≤ x.length ∧
  x.getD (l - 1) 0 < x.getD l 0 ∧
  (∀ k, l ≤ k → k ≤ r → x.getD k 0 = x.getD l 0) ∧
  x.getD (r + 1) 0 < x.getD r 0

/-- A month index reported by the local-maxima scan: the midpoint of an
interior maximal plateau. -/
def isLocalMaxMidpoint (x : List ℚ) (m : Nat) : Prop :=
  ∃ l r, IsPlateauMax x l r ∧ m = (l + r) / 2

/-! ## Method and mode normalization -/

/-- Python `str.strip()`: drop leading and trailing whitespace (rendered
over the character list so that it evaluates inside the kernel). -/
def pyStrip (s : String) : String :=
  ⟨((s.data.dropWhile Char.isWhitespace).reverse.dropWhile Char.isWhitespace).reverse⟩

/-- Python `str.lower()` (ASCII case folding, which covers every method
and mode name the program compares). -/
def pyLower (s : String) : String :=
  ⟨s.data.map Char.toLower⟩

/-- The three canonical method names recognized verbatim (after `strip`). -/
def canonicalMethods : List String :=
  ["Hybrid (3-4 months)", "Mathematical Strict", "Original (find_peaks)"]

/-- The lower-case alias table of `normalize_detection_method`. -/
def methodMapping (s : String) : Option String :=
  if s = "hybrid" then some "Hybrid (3-4 months)"
  else if s = "hybrid (3-4 months)" then some "Hybrid (3-4 months)"
  else if s = "mathematical strict" then some "Mathematical Strict"
  else if s = "strict" then some "Mathematical Strict"
  else if s = "original" then some "Original (find_peaks)"
  else if s = "original (find_peaks)" then some "Original (find_peaks)"
  else if s = "find_peaks" then some "Original (find_peaks)"
  else none

/-- `normalize_detection_method(method)` from `main.py`.  A Python-falsy
argument (`None` or the empty string) yields the default; otherwise the
stripped string is kept if canonical, else looked up lower-cased in the
alias table with the default as fallback. -/
def normalize_detection_method : Option String → String
  | none => "Hybrid (3-4 months)"
  | some m =>
      if m = "" then "Hybrid (3-4 months)"
      else
        let t := pyStrip m
        if t ∈ canonicalMethods then t
        else (methodMapping (pyLower t)).getD "Hybrid (3-4 months)"

/-- `normalize_analysis_mode(mode)` from `main.py`. -/
def normalize_analysis_mode : Option String → String
  | none => "percentages"
  | some m =>
      if m = "" then "percentages"
      else
        let key := pyLower (pyStrip m)
        if key = "percentages" ∨ key = "percentage" ∨ key = "percent" ∨
            key = "porcentajes" then "percentages"
        else if key = "absolute" ∨ key = "absoluto" ∨ key = "absolute numbers" then
          "absolute"
        else "percentages"

/-- `np.mean` of a rational series (sum divided by length; the program only
takes the mean of nonempty series). -/
def npMean (x : List ℚ) : ℚ := x.sum / x.length

/-- `detect_inflection_points(monthly_percentages, method)` from `main.py`:
normalize the method name, return empty index arrays on an empty series,
else dispatch — `Original (find_peaks)` uses `find_peaks` with the series
mean as height and distance 2 (valleys: the negated series with mirrored
height), `Mathematical Strict` uses the rank-based selection, and the
default `Hybrid (3-4 months)` uses `find_peaks` with distance 3. -/
def detect_inflection_points (monthly_percentages : List ℚ) (method : Option String) :
    List Nat × List Nat :=
  let method_normalized := normalize_detection_method method
  if monthly_percentages.length = 0 then ([], [])
  else
    let average := npMean monthly_percentages
    if method_normalized = "Original (find_peaks)" then
      (find_peaks monthly_percentages average 2,
       find_peaks (monthly_percentages.map (fun v => -v)) (-average) 2)
    else if method_normalized = "Mathematical Strict" then
      detect_peaks_valleys_quartiles monthly_percentages
    else
      (find_peaks monthly_percentages average 3,
       find_peaks (monthly_percentages.map (fun v => -v)) (-average) 3)

/-! ## Aggregation (`prepare_company_dataframe`, `calculate_monthly_metrics`,
`calculate_annual_data`) -/

/-- One row of the prepared per-company dataframe, after the `astype`
coercions of `prepare_company_dataframe` (`year`/`month` to int, `calls` to
float): the value-level view the aggregation functions consume. -/
structure CompanyRow where
  company_id : CellVal
  company_name : Option String
  year : Int
  month : Int
  calls : ℚ
  deriving DecidableEq, Repr

/-- `prepare_company_dataframe(calls_df, company_id)` from `main.py` at the
value level: stringify the requested id, keep the rows whose stringified
`company_id` equals it, and raise (`KeyError`, the NotFound condition) when
none match.  The required-columns check always passes here because the
embedded row type carries `year`/`month`/`calls` by construction, and the
`astype` coercions are identities at this level; the reference-level
copy-then-coerce behaviour is modelled separately below. -/
def prepare_company_dataframe (calls_df : List CompanyRow) (company_id : CellVal) :
    Except String (List CompanyRow × String) :=
  let company_id_str := pyStr company_id
  let company_df := calls_df.filter (fun r => pyStr r.company_id = company_id_str)
  if company_df.isEmpty then
    Except.error ("No data found for company " ++ company_id_str)
  else
    Except.ok (company_df, company_id_str)

/-- `company_df.groupby('month')['calls'].sum().get(m, 0.0)`: the summed
calls of month `m`, `0` when the month is absent. -/
def monthColumnSum (company_df : List CompanyRow) (m : Int) : ℚ :=
  ((company_df.filter (fun r => r.month = m)).map (fun r => r.calls)).sum

/-- `list(range(1, 13))`: the twelve calendar months. -/
def monthsList : List Int := (List.range 12).map (fun i => (i : Int) + 1)

/-- `calculate_monthly_metrics(company_df)` from `main.py`: the month list,
the 12 summed monthly call counts (absent months filled with 0), the
percentage series `calls / total * 100` (all zeros when the total is not
positive), and the total. -/
def calculate_monthly_metrics (company_df : List CompanyRow) :
    List Int × List ℚ × List ℚ × ℚ :=
  let months := monthsList
  let monthly_calls := months.map (monthColumnSum company_df)
  let total_calls := monthly_calls.sum
  let monthly_percentages :=
    if 0 < total_calls then monthly_calls.map (fun c => c / total_calls * 100)
    else List.replicate 12 0
  (months, monthly_calls, monthly_percentages, total_calls)

/-- Ascending insertion step for sorting `Int` lists (`sorted(...)`). -/
def intInsert (i : Int) : List Int → List Int
  | [] => [i]
  | j :: rest => if j ≤ i then j :: intInsert i rest else i :: j :: rest

/-- Python `sorted` on an `Int` list, as insertion sort. -/
def intSort (l : List Int) : List Int :=
  l.foldl (fun acc i => intInsert i acc) []

/-- The summed calls of the `(year, month)` group: the value the grouped
frame `yearly_monthly` holds for that pair, `0` when the pair is absent. -/
def yearMonthSum (company_df : List CompanyRow) (y m : Int) : ℚ :=
  ((company_df.filter (fun r => r.year = y ∧ r.month = m)).map (fun r => r.calls)).sum

/-- `year_data['calls'].sum()`: the total of the grouped per-month sums of
year `y`, which equals the direct sum of `calls` over the year's rows. -/
def yearTotalSum (company_df : List CompanyRow) (y : Int) : ℚ :=
  ((company_df.filter (fun r => r.year = y)).map (fun r => r.calls)).sum

/-- `calculate_annual_data(company_df, mode)` from `main.py`: `None` on an
empty frame, else one row per distinct year (ascending), each row the 12
monthly values — the grouped `(year, month)` call sum, turned into a
within-year percentage (`value / year_total * 100`, or 0 when the year
total is not positive) in percentage mode.  (The source's second emptiness
check, on the grouped frame, is subsumed by the first: grouping an empty
frame is empty and vice versa.) -/
def calculate_annual_data (company_df : List CompanyRow) (mode : String) :
    Option (List (Int × List ℚ)) :=
  if company_df.isEmpty then none
  else
    let years := intSort (company_df.map (fun r => r.year)).dedup
    some (years.map (fun y =>
      let year_total := yearTotalSum company_df y
      (y, monthsList.map (fun m =>
        let value := yearMonthSum company_df y m
        if mode = "percentages" then
          if 0 < year_total then value / year_total * 100 else 0
        else value))))

/-! ## Rounding and payload assembly -/

/-- Python `round` to the nearest integer, ties to even (banker's
rounding). -/
def pyRound (q : ℚ) : Int :=
  let f := ⌊q⌋
  let r := q - (f : ℚ)
  if r < 1/2 then f
  else if 1/2 < r then f + 1
  else if f % 2 = 0 then f else f + 1

/-- Python `round(q, d)` idealized over exact rationals: round the scaled
value to the nearest integer (ties to even) and scale back. -/
def roundTo (d : Nat) (q : ℚ) : ℚ :=
  (pyRound (q * (10 : ℚ) ^ d) : ℚ) / (10 : ℚ) ^ d

/-- `format_annual_table(annual_df, mode)` from `main.py`: stringify the
year and month keys; percentage mode rounds to 2 decimals, absolute mode
to a (banker's-rounded) integer. -/
def format_annual_table (annual : Option (List (Int × List ℚ))) (mode : String) :
    List (String × List (String × ℚ)) :=
  match annual with
  | none => []
  | some table =>
      table.map (fun yr =>
        (toString yr.1,
         (monthsList.zip yr.2).map (fun mv =>
           (toString mv.1,
            if mode = "percentages" then roundTo 2 mv.2 else (pyRound mv.2 : ℚ)))))

/-- `build_curve_data(months, monthly_calls, monthly_percentages)` from
`main.py`: one `(month, percentage rounded to 4 decimals, calls)` triple
per position. -/
def build_curve_data (months : List Int) (monthly_calls monthly_percentages : List ℚ) :
    List (Int × ℚ × ℚ) :=
  (List.range months.length).map (fun idx =>
    (months.getD idx 0, roundTo 4 (monthly_percentages.getD idx 0),
     monthly_calls.getD idx 0))

/-- The JSON-serializable response of `build_analysis_payload` (the
optional `summary` block — campaigns/customers/states — is outside the
modelled schema; it is assembled from read-only aggregations and not
referenced by any claim). -/
structure AnalysisPayload where
  company_id : String
  company_name : String
  detection_method : String
  analysis_mode : String
  total_calls : Int
  curve_data : List (Int × ℚ × ℚ)
  peak_months : List Int
  valley_months : List Int
  annual_table : List (String × List (String × ℚ))
  breakdown_months : List Int
  breakdown_calls : List Int
  breakdown_percentages : List ℚ
  year_range : Int × Int
  deriving DecidableEq, Repr

/-- The body of `build_analysis_payload` after `prepare_company_dataframe`
succeeded: metrics, detection, curve, annual table, breakdown and year
range, assembled from the prepared company rows. -/
def payload_from_company_df (company_df : List CompanyRow)
    (company_id_str detection_method analysis_mode : String) : AnalysisPayload :=
  let company_name := (company_df.filterMap (fun r => r.company_name)).headD company_id_str
  let metrics := calculate_monthly_metrics company_df
  let months := metrics.1
  let monthly_calls := metrics.2.1
  let monthly_percentages := metrics.2.2.1
  let total_calls := metrics.2.2.2
  let detected := detect_inflection_points monthly_percentages (some detection_method)
  let peak_months := intSort ((detected.1.map (fun idx => months.getD idx 0)).dedup)
  let valley_months := intSort ((detected.2.map (fun idx => months.getD idx 0)).dedup)
  let curve_data := build_curve_data months monthly_calls monthly_percentages
  let annual_table := format_annual_table (calculate_annual_data company_df analysis_mode)
    analysis_mode
  let yearsAll := company_df.map (fun r => r.year)
  { company_id := company_id_str
    company_name := company_name
    detection_method := detection_method
    analysis_mode := analysis_mode
    total_calls := pyRound total_calls
    curve_data := curve_data
    peak_months := peak_months
    valley_months := valley_months
    annual_table := annual_table
    breakdown_months := months
    breakdown_calls := monthly_calls.map (fun v => pyRound v)
    breakdown_percentages := monthly_percentages.map (fun v => roundTo 4 v)
    year_range := (yearsAll.foldl min (yearsAll.headD 0),
                   yearsAll.foldl max (yearsAll.headD 0)) }

/-- `build_analysis_payload(calls_df, company_id, detection_method,
analysis_mode)` from `main.py` at the value level: normalize the method and
mode, prepare the company dataframe (propagating the NotFound error), then
assemble the payload. -/
def build_analysis_payload (calls_df : List CompanyRow) (company_id : CellVal)
    (detection_method analysis_mode : Option String) :
    Except String AnalysisPayload :=
  let dm := normalize_detection_method detection_method
  let am := normalize_analysis_mode analysis_mode
  match prepare_company_dataframe calls_df company_id with
  | Except.error e => Except.error e
  | Except.ok pair => Except.ok (payload_from_company_df pair.1 pair.2 dm am)

/-! ## Reference-level model of the dataframe copy (`.copy()` + `astype`)

`prepare_company_dataframe` filters the shared cached dataframe, takes a
`.copy()` of the filtered rows, and only then assigns the coerced
`year`/`month`/`calls` columns.  At the value level those writes are
invisible, so for the frame-effect claim the tables live in an explicit
store of table objects: filtering+copying allocates a fresh table, and each
`astype` assignment overwrites one stored table in place, exactly the
object the source mutates. -/

/-- A raw dataframe cell before the `astype` coercions (BigQuery delivers
int64 columns, but the model lets a cell arrive as int, float or numeric
string, which is what `astype` can coerce). -/
inductive PyCell where
  | intC (n : Int)
  | floatC (q : ℚ)
  | strC (s : String)
  deriving DecidableEq, Repr

/-- A raw row of the cached table: a typed-or-stringly company id and raw
`year`/`month`/`calls` cells. -/
structure RawRow where
  company_id : CellVal
  company_name : Option String
  year : PyCell
  month : PyCell
  calls : PyCell
  deriving DecidableEq, Repr

/-- `astype(int)` on one cell: ints pass through, floats truncate toward
zero, strings parse as integers or raise. -/
def cellToInt : PyCell → Except String Int
  | .intC n => Except.ok n
  | .floatC q => Except.ok (q.num.tdiv q.den)
  | .strC s =>
      match (pyStrip s).toInt? with
      | some n => Except.ok n
      | none => Except.error ("invalid literal for int: " ++ s)

/-- `astype(float)` on one cell: ints and floats pass through; strings
parse when integer-valued (decimal-string parsing is not modelled and
raises). -/
def cellToFloat : PyCell → Except String ℚ
  | .intC n => Except.ok (n : ℚ)
  | .floatC q => Except.ok q
  | .strC s =>
      match (pyStrip s).toInt? with
      | some n => Except.ok ((n : ℚ))
      | none => Except.error ("could not convert string to float: " ++ s)

/-- The store of live dataframe objects; a dataframe handle is an index
into it. -/
structure Store where
  tables : List (List RawRow)
  deriving Repr

/-- Read the table object behind handle `r`. -/
def Store.getTable (s : Store) (r : Nat) : List RawRow := s.tables.getD r []

/-- Overwrite the table object behind handle `r` (an in-place column
assignment). -/
def Store.setTable (s : Store) (r : Nat) (t : List RawRow) : Store :=
  ⟨s.tables.set r t⟩

/-- `.copy()`: allocate a fresh table object and return its handle. -/
def Store.alloc (s : Store) (t : List RawRow) : Store × Nat :=
  (⟨s.tables ++ [t]⟩, s.tables.length)

/-- `company_df['year'] = company_df['year'].astype(int)` applied to a
table value. -/
def astypeYearInt (t : List RawRow) : Except String (List RawRow) :=
  t.mapM (fun row => (cellToInt row.year).map (fun n => { row with year := PyCell.intC n }))

/-- `company_df['month'] = company_df['month'].astype(int)` applied to a
table value. -/
def astypeMonthInt (t : List RawRow) : Except String (List RawRow) :=
  t.mapM (fun row => (cellToInt row.month).map (fun n => { row with month := PyCell.intC n }))

/-- `company_df['calls'] = company_df['calls'].astype(float)` applied to a
table value. -/
def astypeCallsFloat (t : List RawRow) : Except String (List RawRow) :=
  t.mapM (fun row => (cellToFloat row.calls).map (fun q => { row with calls := PyCell.floatC q }))

/-- `prepare_company_dataframe` at the reference level: filter the cached
table behind `r`, raise NotFound when nothing matches, otherwise `.copy()`
the filtered rows into a fresh table object and perform the three `astype`
column assignments on that object (each one an in-place store write). -/
def prepare_company_dataframe_st (s : Store) (r : Nat) (company_id : CellVal) :
    Except String (Store × Nat × String) :=
  let company_id_str := pyStr company_id
  let filtered := (s.getTable r).filter (fun row => pyStr row.company_id = company_id_str)
  if filtered.isEmpty then
    Except.error ("No data found for company " ++ company_id_str)
  else
    let allocated := s.alloc filtered
    let s1 := allocated.1
    let rc := allocated.2
    match astypeYearInt (s1.getTable rc) with
    | Except.error e => Except.error e
    | Except.ok t1 =>
        let s2 := s1.setTable rc t1
        match astypeMonthInt (s2.getTable rc) with
        | Except.error e => Except.error e
        | Except.ok t2 =>
            let s3 := s2.setTable rc t2
            match astypeCallsFloat (s3.getTable rc) with
            | Except.error e => Except.error e
            | Except.ok t3 => Except.ok (s3.setTable rc t3, rc, company_id_str)

/-- Read one converted row as the value-level `CompanyRow` the aggregation
functions consume (after the three `astype` writes the cells are int, int
and float, so the fallback defaults never fire). -/
def toCompanyRow (row : RawRow) : CompanyRow :=
  { company_id := row.company_id
    company_name := row.company_name
    year := match row.year with | .intC n => n | .floatC q => q.num.tdiv q.den | .strC _ => 0
    month := match row.month with | .intC n => n | .floatC q => q.num.tdiv q.den | .strC _ => 0
    calls := match row.calls with | .intC n => (n : ℚ) | .floatC q => q | .strC _ => 0 }

/-- `build_analysis_payload` at the reference level: normalize, run the
stateful `prepare_company_dataframe`, then assemble the payload from the
converted copy.  Everything after `prepare_company_dataframe` in the source
(groupby/sum/mean/max aggregations and the detectors) only reads the
dataframes, so the store is threaded through unchanged from there on. -/
def build_analysis_payload_st (s : Store) (r : Nat) (company_id : CellVal)
    (detection_method analysis_mode : Option String) :
    Except String (Store × AnalysisPayload) :=
  let dm := normalize_detection_method detection_method
  let am := normalize_analysis_mode analysis_mode
  match prepare_company_dataframe_st s r company_id with
  | Except.error e => Except.error e
  | Except.ok res =>
      Except.ok (res.1,
        payload_from_company_df ((res.1.getTable res.2.1).map toCompanyRow) res.2.2 dm am)

/-! ## Predicates written from the spec's words (for refinement
comparisons only; the operational definitions above are the embedding of
the source) -/

/-- Modelled from the spec: "always compare as trimmed strings" — the
row-matching relation §4.2 prescribes for company identifiers. -/
def specTrimmedMatch (row_id req : CellVal) : Prop :=
  pyStrip (pyStr row_id) = pyStrip (pyStr req)

instance (a b : CellVal) : Decidable (specTrimmedMatch a b) := by
  unfold specTrimmedMatch
  exact inferInstance

/-- Modelled from the spec: "A local maximum is a point higher than both
immediate neighbors (or at a series boundary with no higher neighbor
within the separation window)" (§4.3 Original method). -/
def specLocalMax (x : List ℚ) (sep : Nat) (i : Nat) : Prop :=
  (0 < i ∧ i + 1 < x.length ∧ x.getD (i - 1) 0 < x.getD i 0 ∧
    x.getD (i + 1) 0 < x.getD i 0) ∨
  (i = 0 ∧ 0 < x.length ∧ ∀ k < x.length, k ≤ sep → x.getD k 0 ≤ x.getD 0 0) ∨
  (i = x.length - 1 ∧ 0 < x.length ∧
    ∀ k < x.length, x.length - 1 - sep ≤ k → x.getD k 0 ≤ x.getD i 0)

instance (x : List ℚ) (sep i : Nat) : Decidable (specLocalMax x sep i) := by
  unfold specLocalMax
  exact inferInstance

/-- A detection-method string the normalizer recognizes: nonempty, and
either canonical after stripping or present in the lower-cased alias
table. -/
def recognizedMethod (m : String) : Bool :=
  !(m == "") &&
    (decide (pyStrip m ∈ canonicalMethods) || (methodMapping (pyLower (pyStrip m))).isSome)

/-! ## Concrete scenario inputs used by the witnesses and counterexamples -/

/-- A 12-month percentage curve that rises only into the final month:
month 12 is a boundary maximum. -/
def c3Series : List ℚ := [0, 0, 0, 0, 0, 0, 0, 0, 0, 0, 0, 100]

/-- A 12-month percentage curve with four interior peaks three months
apart. -/
def c4Series : List ℚ := [0, 30, 0, 0, 30, 0, 0, 30, 0, 0, 30, 0]

/-- A length-4 series for the Mathematical Strict witness. -/
def c1Series : List ℚ := [5, 1, 7, 3]

/-- The spec's §8 scenario: company "C1" with calls 10 in months 1–11 and
100 in month 12. -/
def c5Rows : List CompanyRow :=
  (List.range 12).map (fun i =>
    { company_id := CellVal.strV "C1"
      company_name := some "Company One"
      year := 2023
      month := (i : Int) + 1
      calls := if i = 11 then 100 else 10 })

/-- One company row for the monthly-metrics witness. -/
def c2Rows : List CompanyRow :=
  [{ company_id := CellVal.strV "A", company_name := none,
     year := 2023, month := 1, calls := 100 }]

/-- Rows of one company over two years (2022 split 10/30 across months 1–2,
2024 with zero calls) for the annual-table witness. -/
def c6Rows : List CompanyRow :=
  [{ company_id := CellVal.strV "A", company_name := none,
     year := 2022, month := 1, calls := 10 },
   { company_id := CellVal.strV "A", company_name := none,
     year := 2022, month := 2, calls := 30 },
   { company_id := CellVal.strV "A", company_name := none,
     year := 2024, month := 3, calls := 0 }]

/-- A table whose only row has the whitespace-padded string id `" 7 "`:
under trimmed comparison it matches the request `"7"`, under the code's
untrimmed comparison it does not. -/
def c7Table : List CompanyRow :=
  [{ company_id := CellVal.strV " 7 ", company_name := none,
     year := 2020, month := 1, calls := 5 }]

/-- A one-table store for the frame-effect witness. -/
def c10Store : Store :=
  ⟨[[{ company_id := CellVal.intV 7, company_name := some "Acme",
       year := PyCell.intC 2023, month := PyCell.intC 1, calls := PyCell.intC 100 }]]⟩

/-! ### Permutation and sortedness facts about `argsort` -/

theorem argInsert_perm (x : List ℚ) (i : Nat) (l : List Nat) :
    (argInsert x i l).Perm (i :: l) := by
  induction l with
  | nil => exact List.Perm.refl _
  | cons j rest ih =>
      unfold argInsert
      split
      · exact (ih.cons j).trans (List.Perm.swap i j rest)
      · exact List.Perm.refl _

theorem argsort_foldl_perm (x : List ℚ) (idxs : List Nat) (acc : List Nat) :
    (idxs.foldl (fun acc i => argInsert x i acc) acc).Perm (idxs ++ acc) := by
  induction idxs generalizing acc with
  | nil => simp
  | cons i rest ih =>
      have h1 := ih (argInsert x i acc)
      have h2 : (rest ++ argInsert x i acc).Perm (rest ++ i :: acc) :=
        List.Perm.append_left rest (argInsert_perm x i acc)
      have h3 : (rest ++ i :: acc).Perm (i :: (rest ++ acc)) := List.perm_middle
      simpa using (h1.trans h2).trans h3

theorem argsort_perm (x : List ℚ) :
    (argsort x).Perm (List.range x.length) := by
  have h := argsort_foldl_perm x (List.range x.length) []
  simpa [argsort] using h

theorem argsort_length (x : List ℚ) : (argsort x).length = x.length := by
  simpa using (argsort_perm x).length_eq

theorem argsort_nodup (x : List ℚ) : (argsort x).Nodup :=
  ((argsort_perm x).symm.nodup (List.nodup_range x.length))

theorem mem_argsort (x : List ℚ) (i : Nat) :
    i ∈ argsort x ↔ i < x.length := by
  rw [(argsort_perm x).mem_iff, List.mem_range]

theorem natInsert_perm (i : Nat) (l : List Nat) :
    (natInsert i l).Perm (i :: l) := by
  induction l with
  | nil => exact List.Perm.refl _
  | cons j rest ih =>
      unfold natInsert
      split
      · exact (ih.cons j).trans (List.Perm.swap i j rest)
      · exact List.Perm.refl _

theorem natSort_perm (l : List Nat) : (natSort l).Perm l := by
  have key : ∀ (idxs acc : List Nat),
      (idxs.foldl (fun acc i => natInsert i acc) acc).Perm (idxs ++ acc) := by
    intro idxs
    induction idxs with
    | nil => simp
    | cons i rest ih =>
        intro acc
        have h1 := ih (natInsert i acc)
        have h2 : (rest ++ natInsert i acc).Perm (rest ++ i :: acc) :=
          List.Perm.append_left rest (natInsert_perm i acc)
        have h3 : (rest ++ i :: acc).Perm (i :: (rest ++ acc)) := List.perm_middle
        simpa using (h1.trans h2).trans h3
  simpa [natSort] using key l []

/-- The order `argsort` establishes: ascending value, ties by index
(the stable order of numpy insertion sort). -/
def lexLt (x : List ℚ) (i j : Nat) : Prop :=
  x.getD i 0 < x.getD j 0 ∨ (x.getD i 0 = x.getD j 0 ∧ i < j)

theorem lexLt_trans (x : List ℚ) {i j k : Nat}
    (hij : lexLt x i j) (hjk : lexLt x j k) : lexLt x i k := by
  rcases hij with h1 | ⟨e1, l1⟩ <;> rcases hjk with h2 | ⟨e2, l2⟩
  · exact Or.inl (h1.trans h2)
  · exact Or.inl (e2 ▸ h1)
  · exact Or.inl (e1 ▸ h2)
  · exact Or.inr ⟨e1.trans e2, l1.trans l2⟩

theorem argInsert_pairwise (x : List ℚ) (i : Nat) (l : List Nat)
    (hp : List.Pairwise (lexLt x) l) (hlt : ∀ j ∈ l, j < i) :
    List.Pairwise (lexLt x) (argInsert x i l) := by
  induction l with
  | nil => simp [argInsert]
  | cons j rest ih =>
      unfold argInsert
      split
      · rename_i hle
        refine List.Pairwise.cons ?_ (ih hp.tail (fun k hk => hlt k (List.mem_cons_of_mem j hk)))
        intro k hk
        rcases List.mem_cons.1 (((argInsert_perm x i rest).mem_iff).1 hk) with rfl | hkr
        · rcases lt_or_eq_of_le hle with hlt2 | heq
          · exact Or.inl hlt2
          · exact Or.inr ⟨heq, hlt j (List.mem_cons_self j rest)⟩
        · exact (List.pairwise_cons.1 hp).1 k hkr
      · rename_i hnle
        have hij : lexLt x i j := Or.inl (lt_of_not_le hnle)
        refine List.Pairwise.cons ?_ hp
        intro k hk
        rcases hk with _ | hkr
        · exact hij
        · exact lexLt_trans x hij ((List.pairwise_cons.1 hp).1 k (by assumption))

theorem foldl_argInsert_pairwise (x : List ℚ) (idxs : List Nat) :
    ∀ acc : List Nat, List.Pairwise (· < ·) idxs →
    List.Pairwise (lexLt x) acc →
    (∀ j ∈ acc, ∀ i ∈ idxs, j < i) →
    List.Pairwise (lexLt x) (idxs.foldl (fun acc i => argInsert x i acc) acc) := by
  induction idxs with
  | nil => intro acc _ hacc _; simpa using hacc
  | cons i rest ih =>
      intro acc hidx hacc hcross
      simp only [List.foldl_cons]
      refine ih _ hidx.tail ?_ ?_
      · exact argInsert_pairwise x i acc hacc
          (fun j hj => hcross j hj i (List.mem_cons_self i rest))
      · intro j hj k hk
        rcases List.mem_cons.1 (((argInsert_perm x i acc).mem_iff).1 hj) with rfl | hja
        · exact (List.pairwise_cons.1 hidx).1 k hk
        · exact hcross j hja k (List.mem_cons_of_mem i hk)

/-- `argsort` lists the indices in the stable ascending order: by value,
ties broken by original position. -/
theorem argsort_sorted (x : List ℚ) :
    List.Pairwise (lexLt x) (argsort x) := by
  refine foldl_argInsert_pairwise x (List.range x.length) [] ?_ (by simp) (by simp)
  exact List.pairwise_lt_range x.length

/-! ### The `_local_maxima_1d` scan: bounds and characterization -/

theorem findAhead_ge (x : List ℚ) (iMax : Nat) (v : ℚ) :
    ∀ fuel iAhead, iAhead ≤ findAhead x iMax v fuel iAhead := by
  intro fuel
  induction fuel with
  | zero => intro iAhead; simp [findAhead]
  | succ fuel ih =>
      intro iAhead
      unfold findAhead
      split
      · exact le_trans (Nat.le_succ _) (ih (iAhead + 1))
      · exact le_refl _

theorem findAhead_le (x : List ℚ) (iMax : Nat) (v : ℚ) :
    ∀ fuel iAhead, iAhead ≤ iMax → findAhead x iMax v fuel iAhead ≤ iMax := by
  intro fuel
  induction fuel with
  | zero => intro iAhead h; simpa [findAhead] using h
  | succ fuel ih =>
      intro iAhead h
      unfold findAhead
      split
      · rename_i hc
        exact ih (iAhead + 1) hc.1
      · exact h

theorem findAhead_eq_on (x : List ℚ) (iMax : Nat) (v : ℚ) :
    ∀ fuel iAhead k, iAhead ≤ k → k < findAhead x iMax v fuel iAhead →
      x.getD k 0 = v := by
  intro fuel
  induction fuel with
  | zero => intro iAhead k h1 h2; simp [findAhead] at h2; omega
  | succ fuel ih =>
      intro iAhead k h1 h2
      unfold findAhead at h2
      split at h2
      · rename_i hc
        rcases eq_or_lt_of_le h1 with rfl | hlt
        · exact hc.2
        · exact ih (iAhead + 1) k hlt h2
      · omega

theorem findAhead_stop (x : List ℚ) (iMax : Nat) (v : ℚ) :
    ∀ fuel iAhead, iMax - iAhead ≤ fuel →
      ¬(findAhead x iMax v fuel iAhead < iMax ∧
        x.getD (findAhead x iMax v fuel iAhead) 0 = v) := by
  intro fuel
  induction fuel with
  | zero =>
      intro iAhead hf
      simp only [findAhead]
      intro h
      omega
  | succ fuel ih =>
      intro iAhead hf
      unfold findAhead
      split
      · rename_i hc
        exact ih (iAhead + 1) (by omega)
      · rename_i hc
        exact hc

theorem lmLoop_ge (x : List ℚ) (iMax : Nat) :
    ∀ fuel i m, m ∈ lmLoop x iMax fuel i → i ≤ m := by
  intro fuel
  induction fuel with
  | zero => intro i m hm; simp [lmLoop] at hm
  | succ fuel ih =>
      intro i m hm
      unfold lmLoop at hm
      split at hm
      · rename_i hi
        split at hm
        · rename_i hrise
          split at hm
          · rename_i hfall
            have ha := findAhead_ge x iMax (x.getD i 0) (fuel + 1) (i + 1)
            rcases List.mem_cons.1 hm with rfl | hm2
            · have h2 : i * 2 ≤ i + (findAhead x iMax (x.getD i 0) (fuel + 1) (i + 1) - 1) := by
                omega
              exact (Nat.le_div_iff_mul_le (by omega)).2 h2
            · have := ih _ _ hm2
              omega
          · have := ih _ _ hm
            omega
        · have := ih _ _ hm
          omega
      · simp at hm

theorem lmLoop_pairwise (x : List ℚ) (iMax : Nat) :
    ∀ fuel i, List.Pairwise (fun a b => a + 2 ≤ b) (lmLoop x iMax fuel i) := by
  intro fuel
  induction fuel with
  | zero => intro i; simp [lmLoop]
  | succ fuel ih =>
      intro i
      unfold lmLoop
      split
      · rename_i hi
        split
        · rename_i hrise
          split
          · rename_i hfall
            refine List.Pairwise.cons ?_ (ih _)
            intro m hm
            have ha := findAhead_ge x iMax (x.getD i 0) (fuel + 1) (i + 1)
            have hge := lmLoop_ge x iMax fuel _ m hm
            have hdiv : (i + (findAhead x iMax (x.getD i 0) (fuel + 1) (i + 1) - 1)) / 2 ≤
                findAhead x iMax (x.getD i 0) (fuel + 1) (i + 1) - 1 := by
              refine Nat.div_le_of_le_mul ?_
              omega
            omega
          · exact ih _
        · exact ih _
      · simp

theorem lmLoop_mem (x : List ℚ) :
    ∀ fuel i m, 1 ≤ i → x.length - 1 - i ≤ fuel →
      (m ∈ lmLoop x (x.length - 1) fuel i ↔
        ∃ l r, i ≤ l ∧ IsPlateauMax x l r ∧ m = (l + r) / 2) := by
  intro fuel
  induction fuel with
  | zero =>
      intro i m h1 hf
      simp only [lmLoop, List.not_mem_nil, false_iff]
      rintro ⟨l, r, hl, ⟨hl1, hlr, hr2, -, -, -⟩, -⟩
      omega
  | succ fuel ih =>
      intro i m h1 hf
      by_cases hi : i < x.length - 1
      · unfold lmLoop
        rw [if_pos hi]
        by_cases hrise : x.getD (i - 1) 0 < x.getD i 0
        · rw [if_pos hrise]
          have ha1 : i + 1 ≤ findAhead x (x.length - 1) (x.getD i 0) (fuel + 1) (i + 1) :=
            findAhead_ge x (x.length - 1) (x.getD i 0) (fuel + 1) (i + 1)
          have ha2 : findAhead x (x.length - 1) (x.getD i 0) (fuel + 1) (i + 1) ≤
              x.length - 1 :=
            findAhead_le x (x.length - 1) (x.getD i 0) (fuel + 1) (i + 1) (by omega)
          have ha3 : ∀ k, i + 1 ≤ k →
              k < findAhead x (x.length - 1) (x.getD i 0) (fuel + 1) (i + 1) →
              x.getD k 0 = x.getD i 0 :=
            findAhead_eq_on x (x.length - 1) (x.getD i 0) (fuel + 1) (i + 1)
          have ha4 : ¬(findAhead x (x.length - 1) (x.getD i 0) (fuel + 1) (i + 1) <
                x.length - 1 ∧
              x.getD (findAhead x (x.length - 1) (x.getD i 0) (fuel + 1) (i + 1)) 0 =
                x.getD i 0) :=
            findAhead_stop x (x.length - 1) (x.getD i 0) (fuel + 1) (i + 1) (by omega)
          set a := findAhead x (x.length - 1) (x.getD i 0) (fuel + 1) (i + 1) with ha_def
          have hconst : ∀ k, i ≤ k → k ≤ a - 1 → x.getD k 0 = x.getD i 0 := by
            intro k hk1 hk2
            rcases eq_or_lt_of_le hk1 with rfl | hk1
            · rfl
            · exact ha3 k hk1 (by omega)
          by_cases hfall : x.getD a 0 < x.getD i 0
          · rw [if_pos hfall]
            simp only [List.mem_cons]
            rw [ih (a + 1) m (by omega) (by omega)]
            constructor
            · rintro (rfl | ⟨l, r, hl, hp, hm⟩)
              · refine ⟨i, a - 1, le_refl i, ⟨h1, by omega, by omega, hrise, ?_, ?_⟩, rfl⟩
                · intro k hk1 hk2
                  exact (hconst k hk1 hk2).trans (hconst i (le_refl i) (by omega)).symm
                · have hsub : a - 1 + 1 = a := by omega
                  rw [hsub, hconst (a - 1) (by omega) (le_refl _)]
                  exact hfall
              · exact ⟨l, r, by omega, hp, hm⟩
            · rintro ⟨l, r, hl, hp, hm⟩
              obtain ⟨hl1, hlr, hr2, hlrise, hlconst, hlfall⟩ := hp
              rcases eq_or_lt_of_le hl with heq | hl2
              · -- l = i: the plateau must be exactly [i, a-1]
                subst heq
                left
                have hr_eq : r = a - 1 := by
                  rcases Nat.lt_trichotomy r (a - 1) with hlt | heq2 | hgt
                  · -- r ≤ a - 2: the plateau continues past r, contradiction
                    exfalso
                    have h5 : x.getD (r + 1) 0 = x.getD i 0 := hconst (r + 1) (by omega) (by omega)
                    have h6 : x.getD r 0 = x.getD i 0 := hlconst r hlr (le_refl r)
                    rw [h5, h6] at hlfall
                    exact lt_irrefl _ hlfall
                  · exact heq2
                  · -- r ≥ a: the plateau would contain `a`, contradiction
                    exfalso
                    have h5 : x.getD a 0 = x.getD i 0 := hlconst a (by omega) (by omega)
                    rw [h5] at hfall
                    exact lt_irrefl _ hfall
                rw [hm, hr_eq]
              · -- l > i: the plateau must start after `a`
                right
                refine ⟨l, r, ?_, ⟨hl1, hlr, hr2, hlrise, hlconst, hlfall⟩, hm⟩
                by_contra hla
                push_neg at hla
                have hla2 : l ≤ a := by omega
                rcases eq_or_lt_of_le hla2 with heq | hla3
                · -- l = a: rising edge into `a` contradicts the fall at `a`
                  have h5 : x.getD (l - 1) 0 = x.getD i 0 := hconst (l - 1) (by omega) (by omega)
                  rw [h5, heq] at hlrise
                  exact absurd (hlrise.trans hfall) (lt_irrefl _)
                · -- i < l < a: the plateau's left edge is flat, contradiction
                  have h5 : x.getD (l - 1) 0 = x.getD i 0 := hconst (l - 1) (by omega) (by omega)
                  have h6 : x.getD l 0 = x.getD i 0 := hconst l (by omega) (by omega)
                  rw [h5, h6] at hlrise
                  exact lt_irrefl _ hlrise
          · rw [if_neg hfall]
            rw [ih (i + 1) m (by omega) (by omega)]
            constructor
            · rintro ⟨l, r, hl, hp, hm⟩
              exact ⟨l, r, by omega, hp, hm⟩
            · rintro ⟨l, r, hl, hp, hm⟩
              obtain ⟨hl1, hlr, hr2, hlrise, hlconst, hlfall⟩ := hp
              refine ⟨l, r, ?_, ⟨hl1, hlr, hr2, hlrise, hlconst, hlfall⟩, hm⟩
              rcases eq_or_lt_of_le hl with heq | hl2
              · -- l = i is impossible when the plateau does not end in a fall
                exfalso
                subst heq
                rcases Nat.lt_trichotomy r (a - 1) with hlt | heq2 | hgt
                · have h5 : x.getD (r + 1) 0 = x.getD i 0 := hconst (r + 1) (by omega) (by omega)
                  have h6 : x.getD r 0 = x.getD i 0 := hlconst r hlr (le_refl r)
                  rw [h5, h6] at hlfall
                  exact lt_irrefl _ hlfall
                · have h5 : x.getD r 0 = x.getD i 0 := hconst r (by omega) (by omega)
                  have h6 : r + 1 = a := by omega
                  rw [h5, h6] at hlfall
                  exact hfall hlfall
                · have h5 : x.getD a 0 = x.getD i 0 := hlconst a (by omega) (by omega)
                  have h7 : a ≥ x.length - 1 := by
                    by_contra h8
                    push_neg at h8
                    exact ha4 ⟨h8, h5⟩
                  omega
              · omega
        · rw [if_neg hrise]
          rw [ih (i + 1) m (by omega) (by omega)]
          constructor
          · rintro ⟨l, r, hl, hp, hm⟩
            exact ⟨l, r, by omega, hp, hm⟩
          · rintro ⟨l, r, hl, hp, hm⟩
            refine ⟨l, r, ?_, hp, hm⟩
            rcases eq_or_lt_of_le hl with rfl | hl2
            · exact absurd hp.2.2.2.1 hrise
            · omega
      · unfold lmLoop
        rw [if_neg hi]
        simp only [List.not_mem_nil, false_iff]
        rintro ⟨l, r, hl, ⟨hl1, hlr, hr2, -, -, -⟩, -⟩
        omega

/-- Membership in `localMaxima` is exactly being the midpoint of an
interior maximal plateau. -/
theorem localMaxima_mem (x : List ℚ) (m : Nat) :
    m ∈ localMaxima x ↔ isLocalMaxMidpoint x m := by
  unfold localMaxima isLocalMaxMidpoint
  rw [lmLoop_mem x x.length 1 m (le_refl 1) (by omega)]
  constructor
  · rintro ⟨l, r, -, hp, hm⟩
    exact ⟨l, r, hp, hm⟩
  · rintro ⟨l, r, hp, hm⟩
    exact ⟨l, r, hp.1, hp, hm⟩

/-- Successive recorded local maxima are at least two samples apart. -/
theorem localMaxima_pairwise (x : List ℚ) :
    List.Pairwise (fun a b => a + 2 ≤ b) (localMaxima x) :=
  lmLoop_pairwise x (x.length - 1) x.length 1

/-! ### The `_select_by_peak_distance` loop -/

theorem selectLoop_monotone (peaks : List Nat) (dist : Nat) :
    ∀ order keep k, selectLoop peaks dist order keep k = true → keep k = true := by
  intro order
  induction order with
  | nil => intro keep k h; exact h
  | cons o rest ih =>
      intro keep k h
      unfold selectLoop at h
      split at h
      · have h2 := ih _ _ h
        unfold markNeighbors at h2
        split at h2
        · exact absurd h2 (by simp)
        · exact h2
      · exact ih _ _ h

theorem selectLoop_sep (peaks : List Nat) (dist : Nat) :
    ∀ order keep j k, j ≠ k →
      ((peaks.getD j 0 : Int) - peaks.getD k 0).natAbs < dist →
      j ∈ order → k ∈ order →
      ¬(selectLoop peaks dist order keep j = true ∧
        selectLoop peaks dist order keep k = true) := by
  intro order
  induction order with
  | nil => intro keep j k _ _ hj; exact absurd hj (List.not_mem_nil j)
  | cons o rest ih =>
      rintro keep j k hne hclose hj hk ⟨hfj, hfk⟩
      unfold selectLoop at hfj hfk
      split at hfj
      · rename_i ho
        rw [if_pos ho] at hfk
        rcases List.mem_cons.1 hj with rfl | hj2
        · -- j is processed now, so k must have been removed
          rcases List.mem_cons.1 hk with rfl | hk2
          · exact hne rfl
          · have h2 := selectLoop_monotone peaks dist rest _ k hfk
            unfold markNeighbors at h2
            rw [if_pos ⟨Ne.symm hne, hclose⟩] at h2
            exact absurd h2 (by simp)
        · rcases List.mem_cons.1 hk with rfl | hk2
          · have h2 := selectLoop_monotone peaks dist rest _ j hfj
            unfold markNeighbors at h2
            rw [if_pos ⟨hne, by omega⟩] at h2
            exact absurd h2 (by simp)
          · exact ih _ j k hne hclose hj2 hk2 ⟨hfj, hfk⟩
      · rename_i ho
        rw [if_neg ho] at hfk
        rcases List.mem_cons.1 hj with rfl | hj2
        · exact ho (selectLoop_monotone peaks dist rest _ j hfj)
        · rcases List.mem_cons.1 hk with rfl | hk2
          · exact ho (selectLoop_monotone peaks dist rest _ k hfk)
          · exact ih _ j k hne hclose hj2 hk2 ⟨hfj, hfk⟩

theorem selectLoop_id_of_sep (peaks : List Nat) (dist : Nat)
    (hsep : ∀ j k, j < peaks.length → k < peaks.length → j ≠ k →
      dist ≤ ((peaks.getD j 0 : Int) - peaks.getD k 0).natAbs) :
    ∀ order keep, (∀ o ∈ order, o < peaks.length) → ∀ k, k < peaks.length →
      selectLoop peaks dist order keep k = keep k := by
  intro order
  induction order with
  | nil => intro keep _ k _; rfl
  | cons o rest ih =>
      intro keep hord k hk
      unfold selectLoop
      have ho : o < peaks.length := hord o (List.mem_cons_self o rest)
      have hrest : ∀ q ∈ rest, q < peaks.length :=
        fun q hq => hord q (List.mem_cons_of_mem o hq)
      split
      · rw [ih _ hrest k hk]
        unfold markNeighbors
        split
        · rename_i hcond
          exact absurd (hsep o k ho hk (Ne.symm hcond.1)) (by omega)
        · rfl
      · exact ih _ hrest k hk

/-! ### `find_peaks`: separation and characterization -/

theorem mem_argsort_reverse (x : List ℚ) (i : Nat) :
    i ∈ (argsort x).reverse ↔ i < x.length := by
  rw [List.mem_reverse, mem_argsort]

/-- Any two distinct peaks returned by `find_peaks` are at least `distance`
samples apart. -/
theorem find_peaks_sep (x : List ℚ) (h : ℚ) (d : Nat) (a b : Nat)
    (ha : a ∈ find_peaks x h d) (hb : b ∈ find_peaks x h d) (hne : a ≠ b) :
    d ≤ ((a : Int) - b).natAbs := by
  unfold find_peaks at ha hb
  obtain ⟨ka, hka_mem, hka⟩ := List.mem_map.1 ha
  obtain ⟨kb, hkb_mem, hkb⟩ := List.mem_map.1 hb
  rw [List.mem_filter] at hka_mem hkb_mem
  obtain ⟨hka_rng, hka_keep⟩ := hka_mem
  obtain ⟨hkb_rng, hkb_keep⟩ := hkb_mem
  rw [List.mem_range] at hka_rng hkb_rng
  have hkne : ka ≠ kb := by
    rintro rfl
    exact hne (hka.symm.trans hkb)
  by_contra hcontra
  push_neg at hcontra
  have hclose : (((localMaxima x).filter (fun p => h ≤ x.getD p 0)).getD ka 0 -
      (((localMaxima x).filter (fun p => h ≤ x.getD p 0)).getD kb 0) : Int).natAbs < d := by
    rw [hka, hkb]
    omega
  have hmem : ∀ q, q < ((localMaxima x).filter (fun p => h ≤ x.getD p 0)).length →
      q ∈ (argsort (((localMaxima x).filter (fun p => h ≤ x.getD p 0)).map
        (fun p => x.getD p 0))).reverse := by
    intro q hq
    rw [mem_argsort_reverse]
    simpa using hq
  exact selectLoop_sep _ d _ _ ka kb hkne hclose (hmem ka hka_rng) (hmem kb hkb_rng)
    ⟨hka_keep, hkb_keep⟩

theorem map_getD_range (l : List Nat) :
    (List.range l.length).map (fun k => l.getD k 0) = l := by
  apply List.ext_getElem
  · simp
  · intro i h1 h2
    simp only [List.getElem_map, List.getElem_range]
    rw [List.getD_eq_getElem l 0 h2]

/-- When the height-filtered candidates are pairwise at least `d` apart the
distance filter keeps everything. -/
theorem find_peaks_eq_candidates (x : List ℚ) (h : ℚ) (d : Nat)
    (hall : List.Pairwise (fun a b => a + d ≤ b)
      ((localMaxima x).filter (fun p => h ≤ x.getD p 0))) :
    find_peaks x h d = (localMaxima x).filter (fun p => h ≤ x.getD p 0) := by
  simp only [find_peaks]
  have hsep : ∀ j k, j < ((localMaxima x).filter (fun p => h ≤ x.getD p 0)).length →
      k < ((localMaxima x).filter (fun p => h ≤ x.getD p 0)).length → j ≠ k →
      d ≤ ((((localMaxima x).filter (fun p => h ≤ x.getD p 0)).getD j 0 : Int) -
        ((localMaxima x).filter (fun p => h ≤ x.getD p 0)).getD k 0).natAbs := by
    intro j k hj hk hne
    have hpw := List.pairwise_iff_getElem.1 hall
    rcases Nat.lt_or_ge j k with hjk | hkj
    · have := hpw j k hj hk hjk
      rw [List.getD_eq_getElem _ 0 hj, List.getD_eq_getElem _ 0 hk]
      omega
    · have hkj2 : k < j := by omega
      have := hpw k j hk hj hkj2
      rw [List.getD_eq_getElem _ 0 hj, List.getD_eq_getElem _ 0 hk]
      omega
  have hkeep : ∀ k, k < ((localMaxima x).filter (fun p => h ≤ x.getD p 0)).length →
      selectByPeakDistance ((localMaxima x).filter (fun p => h ≤ x.getD p 0))
        (((localMaxima x).filter (fun p => h ≤ x.getD p 0)).map (fun p => x.getD p 0))
        d k = true := by
    intro k hk
    unfold selectByPeakDistance
    rw [selectLoop_id_of_sep _ d hsep _ _ ?_ k hk]
    intro o ho
    rw [mem_argsort_reverse] at ho
    simpa using ho
  have hfilter : (List.range ((localMaxima x).filter
        (fun p => h ≤ x.getD p 0)).length).filter
      (fun k => selectByPeakDistance ((localMaxima x).filter (fun p => h ≤ x.getD p 0))
        (((localMaxima x).filter (fun p => h ≤ x.getD p 0)).map (fun p => x.getD p 0))
        d k) =
      List.range ((localMaxima x).filter (fun p => h ≤ x.getD p 0)).length := by
    apply List.filter_eq_self.2
    intro k hk
    rw [List.mem_range] at hk
    exact hkeep k hk
  rw [hfilter, map_getD_range]

/-- The distance-2 filter never removes a local maximum: recorded maxima
are already two or more samples apart.  `find_peaks` with `distance=2` is
exactly the height filter over the local maxima. -/
theorem find_peaks_two_eq (x : List ℚ) (h : ℚ) :
    find_peaks x h 2 = (localMaxima x).filter (fun p => h ≤ x.getD p 0) :=
  find_peaks_eq_candidates x h 2
    ((localMaxima_pairwise x).filter (fun p => h ≤ x.getD p 0))

/-- Membership characterization of the Original-method peak scan: an index
is reported exactly when it is the midpoint of an interior maximal plateau
and its value is at least the height threshold. -/
theorem mem_find_peaks_two (x : List ℚ) (h : ℚ) (m : Nat) :
    m ∈ find_peaks x h 2 ↔ isLocalMaxMidpoint x m ∧ h ≤ x.getD m 0 := by
  rw [find_peaks_two_eq, List.mem_filter, localMaxima_mem]
  simp

/-! ### Dispatch equations for `detect_inflection_points` -/

theorem detect_original_eq (x : List ℚ) :
    detect_inflection_points x (some "Original (find_peaks)") =
      (find_peaks x (npMean x) 2, find_peaks (x.map (fun v => -v)) (-npMean x) 2) := by
  simp only [detect_inflection_points]
  rw [show normalize_detection_method (some "Original (find_peaks)") =
    "Original (find_peaks)" from by decide]
  by_cases hx : x.length = 0
  · rw [if_pos hx]
    have hx2 : x = [] := List.length_eq_zero.1 hx
    subst hx2
    rfl
  · rw [if_neg hx, if_pos rfl]

theorem detect_strict_eq (x : List ℚ) :
    detect_inflection_points x (some "Mathematical Strict") =
      detect_peaks_valleys_quartiles x := by
  simp only [detect_inflection_points]
  rw [show normalize_detection_method (some "Mathematical Strict") =
    "Mathematical Strict" from by decide]
  by_cases hx : x.length = 0
  · rw [if_pos hx]
    have hx2 : x = [] := List.length_eq_zero.1 hx
    subst hx2
    rfl
  · rw [if_neg hx, if_neg (by decide), if_pos rfl]

theorem detect_eq_hybrid_of_normalize (x : List ℚ) (method : Option String)
    (h : normalize_detection_method method = "Hybrid (3-4 months)") :
    detect_inflection_points x method =
      (find_peaks x (npMean x) 3, find_peaks (x.map (fun v => -v)) (-npMean x) 3) := by
  simp only [detect_inflection_points]
  rw [h]
  by_cases hx : x.length = 0
  · rw [if_pos hx]
    have hx2 : x = [] := List.length_eq_zero.1 hx
    subst hx2
    rfl
  · rw [if_neg hx, if_neg (by decide), if_neg (by decide)]

theorem normalize_unrecognized (m : String) (hm : recognizedMethod m = false) :
    normalize_detection_method (some m) = "Hybrid (3-4 months)" := by
  by_cases hempty : m = ""
  · subst hempty
    rfl
  · have hempty2 : (m == "") = false := by
      rw [beq_eq_false_iff_ne]
      exact hempty
    unfold recognizedMethod at hm
    rw [hempty2] at hm
    simp only [Bool.not_false, Bool.true_and, Bool.or_eq_false_iff] at hm
    obtain ⟨h1, h2⟩ := hm
    have h3 : methodMapping (pyLower (pyStrip m)) = none := by
      rcases hmm : methodMapping (pyLower (pyStrip m)) with _ | v
      · rfl
      · rw [hmm] at h2
        simp at h2
    simp only [normalize_detection_method]
    rw [if_neg hempty, if_neg (by simpa using h1), h3]
    rfl

/-! ### Helpers for the Original-method membership characterization -/

theorem midpoint_lt_length {x : List ℚ} {m : Nat} (h : isLocalMaxMidpoint x m) :
    m < x.length := by
  obtain ⟨l, r, ⟨-, hlr, hr2, -, -, -⟩, hm⟩ := h
  have : (l + r) / 2 ≤ r := Nat.div_le_of_le_mul (by omega)
  omega

theorem getD_map_neg (x : List ℚ) (m : Nat) (h : m < x.length) :
    (x.map (fun v => -v)).getD m 0 = -(x.getD m 0) := by
  have h2 : m < (x.map (fun v => -v)).length := by simpa using h
  rw [List.getD_eq_getElem _ _ h2, List.getElem_map, List.getD_eq_getElem _ _ h]

/-- C3 (amended): under the Original method a month is reported as a peak
exactly when its percentage is at least the series mean and it is an
interior local maximum — strictly higher than the nearest non-equal
neighbours on both sides, a tied run reported at its midpoint; months at
the series boundary are never reported.  Valleys are the same detection on
the negated series under the mirrored threshold (percentage at most the
mean). -/
theorem c3_original_membership (x : List ℚ) (m : Nat) :
    (m ∈ (detect_inflection_points x (some "Original (find_peaks)")).1 ↔
      isLocalMaxMidpoint x m ∧ npMean x ≤ x.getD m 0) ∧
    (m ∈ (detect_inflection_points x (some "Original (find_peaks)")).2 ↔
      isLocalMaxMidpoint (x.map (fun v => -v)) m ∧ x.getD m 0 ≤ npMean x) := by
  rw [detect_original_eq]
  constructor
  · exact mem_find_peaks_two x (npMean x) m
  · rw [show ((find_peaks x (npMean x) 2,
        find_peaks (x.map (fun v => -v)) (-npMean x) 2)).2 =
      find_peaks (x.map (fun v => -v)) (-npMean x) 2 from rfl]
    rw [mem_find_peaks_two (x.map (fun v => -v)) (-npMean x) m]
    constructor
    · rintro ⟨hlm, hle⟩
      refine ⟨hlm, ?_⟩
      have hmlt : m < x.length := by
        have := midpoint_lt_length hlm
        simpa using this
      rw [getD_map_neg x m hmlt] at hle
      linarith
    · rintro ⟨hlm, hle⟩
      refine ⟨hlm, ?_⟩
      have hmlt : m < x.length := by
        have := midpoint_lt_length hlm
        simpa using this
      rw [getD_map_neg x m hmlt]
      linarith

/-- C9: every detection method (recognized or not, including the absent
method) returns empty peak and valley sets on an empty percentage series;
the function is total, so no failure occurs. -/
theorem c9_empty_series (method : Option String) :
    detect_inflection_points [] method = ([], []) := by
  simp only [detect_inflection_points, List.length_nil]
  simp

/-- C1: on any series of length at least 4 the Mathematical Strict method
returns exactly two distinct peak indices and exactly two distinct valley
indices, and no index is both a peak and a valley. -/
theorem c1_strict_two_peaks_two_valleys (x : List ℚ) (hx : 4 ≤ x.length) :
    (detect_inflection_points x (some "Mathematical Strict")).1.length = 2 ∧
    (detect_inflection_points x (some "Mathematical Strict")).2.length = 2 ∧
    (detect_inflection_points x (some "Mathematical Strict")).1.Nodup ∧
    (detect_inflection_points x (some "Mathematical Strict")).2.Nodup ∧
    ∀ i ∈ (detect_inflection_points x (some "Mathematical Strict")).1,
      i ∉ (detect_inflection_points x (some "Mathematical Strict")).2 := by
  rw [detect_strict_eq]
  unfold detect_peaks_valleys_quartiles
  rw [if_neg (by omega)]
  simp only
  have hslen : (argsort x).length = x.length := argsort_length x
  have hsnd : (argsort x).Nodup := argsort_nodup x
  refine ⟨?_, ?_, ?_, ?_, ?_⟩
  · rw [(natSort_perm _).length_eq, List.length_drop]
    omega
  · rw [(natSort_perm _).length_eq, List.length_take]
    omega
  · exact ((natSort_perm _).symm).nodup (hsnd.sublist (List.drop_sublist _ _))
  · exact ((natSort_perm _).symm).nodup (hsnd.sublist (List.take_sublist _ _))
  · intro i hip hiv
    have hip2 : i ∈ (argsort x).drop ((argsort x).length - 2) :=
      (natSort_perm _).subset hip
    have hiv2 : i ∈ (argsort x).take 2 := (natSort_perm _).subset hiv
    have hsplit : (argsort x).take ((argsort x).length - 2) ++
        (argsort x).drop ((argsort x).length - 2) = argsort x :=
      List.take_append_drop _ _
    have hd : ((argsort x).take ((argsort x).length - 2)).Disjoint
        ((argsort x).drop ((argsort x).length - 2)) := by
      have := List.nodup_append.1 (by rw [hsplit]; exact hsnd)
      exact this.2.2
    have htk : i ∈ (argsort x).take ((argsort x).length - 2) := by
      have h22 : (argsort x).take 2 =
          List.take 2 ((argsort x).take ((argsort x).length - 2)) := by
        rw [List.take_take]
        congr 1
        omega
      rw [h22] at hiv2
      exact List.take_subset _ _ hiv2
    exact hd htk hip2

/-- C4: Hybrid runs the same `find_peaks` pipeline as Original with
minimum separation 3 instead of 2, and any two distinct peaks (or valleys)
returned by Original are at least 2 positions apart while any two distinct
peaks (or valleys) returned by Hybrid are at least 3 positions apart. -/
theorem c4_min_separation (x : List ℚ) :
    (detect_inflection_points x (some "Hybrid (3-4 months)") =
        (find_peaks x (npMean x) 3, find_peaks (x.map (fun v => -v)) (-npMean x) 3) ∧
      detect_inflection_points x (some "Original (find_peaks)") =
        (find_peaks x (npMean x) 2, find_peaks (x.map (fun v => -v)) (-npMean x) 2)) ∧
    (∀ a b, a ∈ (detect_inflection_points x (some "Original (find_peaks)")).1 →
      b ∈ (detect_inflection_points x (some "Original (find_peaks)")).1 → a ≠ b →
      2 ≤ ((a : Int) - b).natAbs) ∧
    (∀ a b, a ∈ (detect_inflection_points x (some "Original (find_peaks)")).2 →
      b ∈ (detect_inflection_points x (some "Original (find_peaks)")).2 → a ≠ b →
      2 ≤ ((a : Int) - b).natAbs) ∧
    (∀ a b, a ∈ (detect_inflection_points x (some "Hybrid (3-4 months)")).1 →
      b ∈ (detect_inflection_points x (some "Hybrid (3-4 months)")).1 → a ≠ b →
      3 ≤ ((a : Int) - b).natAbs) ∧
    (∀ a b, a ∈ (detect_inflection_points x (some "Hybrid (3-4 months)")).2 →
      b ∈ (detect_inflection_points x (some "Hybrid (3-4 months)")).2 → a ≠ b →
      3 ≤ ((a : Int) - b).natAbs) := by
  have hH := detect_eq_hybrid_of_normalize x (some "Hybrid (3-4 months)") (by decide)
  have hO := detect_original_eq x
  refine ⟨⟨hH, hO⟩, ?_, ?_, ?_, ?_⟩ <;> intro a b ha hb hne
  · rw [hO] at ha hb
    exact find_peaks_sep x (npMean x) 2 a b ha hb hne
  · rw [hO] at ha hb
    exact find_peaks_sep (x.map (fun v => -v)) (-npMean x) 2 a b ha hb hne
  · rw [hH] at ha hb
    exact find_peaks_sep x (npMean x) 3 a b ha hb hne
  · rw [hH] at ha hb
    exact find_peaks_sep (x.map (fun v => -v)) (-npMean x) 3 a b ha hb hne

/-- C8: the absent method and every unrecognized method string normalize to
the default `"Hybrid (3-4 months)"`, and detection under an unrecognized
method string coincides with detection under the literal default name on
every series. -/
theorem c8_unrecognized_defaults :
    normalize_detection_method none = "Hybrid (3-4 months)" ∧
    ∀ m : String, recognizedMethod m = false →
      normalize_detection_method (some m) = "Hybrid (3-4 months)" ∧
      ∀ x : List ℚ, detect_inflection_points x (some m) =
        detect_inflection_points x (some "Hybrid (3-4 months)") := by
  refine ⟨rfl, fun m hm => ⟨normalize_unrecognized m hm, fun x => ?_⟩⟩
  rw [detect_eq_hybrid_of_normalize x (some m) (normalize_unrecognized m hm),
    detect_eq_hybrid_of_normalize x (some "Hybrid (3-4 months)") (by decide)]

/-! ### Monthly metrics (`calculate_monthly_metrics`) -/

theorem monthsList_len : monthsList.length = 12 := by decide

theorem monthsList_getD (idx : Nat) (h : idx < 12) :
    monthsList.getD idx 0 = (idx : Int) + 1 := by
  have he : monthsList = [1, 2, 3, 4, 5, 6, 7, 8, 9, 10, 11, 12] := by decide
  rw [he]
  interval_cases idx <;> rfl

theorem mem_monthsList (m : Int) : m ∈ monthsList ↔ 1 ≤ m ∧ m ≤ 12 := by
  have he : monthsList = [1, 2, 3, 4, 5, 6, 7, 8, 9, 10, 11, 12] := by decide
  rw [he]
  simp only [List.mem_cons, List.not_mem_nil, or_false]
  omega

/-- C2: with a positive annual total each monthly percentage is that
month's summed calls divided by the total times 100 and the 12 percentages
sum exactly to 100; with a zero total the percentage series is the all-zero
12-vector (the division is never taken on that branch). -/
theorem c2_monthly_percentages (company_df : List CompanyRow) :
    (0 < (calculate_monthly_metrics company_df).2.2.2 →
      (∀ idx < 12, (calculate_monthly_metrics company_df).2.2.1.getD idx 0 =
        monthColumnSum company_df ((idx : Int) + 1) /
          (calculate_monthly_metrics company_df).2.2.2 * 100) ∧
      (calculate_monthly_metrics company_df).2.2.1.sum = 100) ∧
    ((calculate_monthly_metrics company_df).2.2.2 = 0 →
      (calculate_monthly_metrics company_df).2.2.1 = List.replicate 12 0) := by
  simp only [calculate_monthly_metrics]
  constructor
  · intro hT
    rw [if_pos hT]
    constructor
    · intro idx hidx
      have hlen : idx < ((monthsList.map (monthColumnSum company_df)).map
          (fun c => c / (monthsList.map (monthColumnSum company_df)).sum * 100)).length := by
        simp [monthsList_len]
        omega
      rw [List.getD_eq_getElem _ _ hlen]
      simp only [List.getElem_map]
      congr 2
      have h2 : idx < monthsList.length := by rw [monthsList_len]; exact hidx
      rw [← List.getD_eq_getElem monthsList 0 h2, monthsList_getD idx hidx]
    · have hfun : (fun c : ℚ => c / (monthsList.map (monthColumnSum company_df)).sum * 100) =
          fun c : ℚ => c * (100 / (monthsList.map (monthColumnSum company_df)).sum) := by
        funext c
        ring
      rw [hfun, List.sum_map_mul_right]
      have hid : ((monthsList.map (monthColumnSum company_df)).map (fun c : ℚ => c)) =
          monthsList.map (monthColumnSum company_df) := List.map_id' _
      rw [hid]
      field_simp
  · intro hT
    rw [if_neg (by rw [hT]; exact lt_irrefl 0)]

/-! ### Annual table (`calculate_annual_data`) -/

theorem sum_map_ite_key (l : List Int) (key : Int) (c : ℚ) (hnd : l.Nodup)
    (hmem : key ∈ l) :
    (l.map (fun m => if key = m then c else 0)).sum = c := by
  induction l with
  | nil => cases hmem
  | cons a rest ih =>
      rw [List.map_cons, List.sum_cons]
      rcases List.mem_cons.1 hmem with rfl | hmem2
      · rw [if_pos rfl]
        have hnotin : key ∉ rest := (List.nodup_cons.1 hnd).1
        have hzero : (rest.map (fun m => if key = m then c else 0)).sum = 0 := by
          apply List.sum_eq_zero
          intro q hq
          obtain ⟨m, hm, rfl⟩ := List.mem_map.1 hq
          rw [if_neg (fun h => hnotin (by rw [h]; exact hm))]
        rw [hzero, add_zero]
      · have hne : key ≠ a := fun h => (List.nodup_cons.1 hnd).1 (by rw [← h]; exact hmem2)
        rw [if_neg hne, zero_add]
        exact ih (List.nodup_cons.1 hnd).2 hmem2

theorem yearMonthSum_cons (r : CompanyRow) (rest : List CompanyRow) (y m : Int) :
    yearMonthSum (r :: rest) y m =
      (if r.year = y ∧ r.month = m then r.calls else 0) + yearMonthSum rest y m := by
  unfold yearMonthSum
  by_cases h : r.year = y ∧ r.month = m
  · rw [List.filter_cons_of_pos (by simpa using h), List.map_cons, List.sum_cons, if_pos h]
  · rw [List.filter_cons_of_neg (by simpa using h), if_neg h, zero_add]

theorem yearTotalSum_cons (r : CompanyRow) (rest : List CompanyRow) (y : Int) :
    yearTotalSum (r :: rest) y =
      (if r.year = y then r.calls else 0) + yearTotalSum rest y := by
  unfold yearTotalSum
  by_cases h : r.year = y
  · rw [List.filter_cons_of_pos (by simpa using h), List.map_cons, List.sum_cons, if_pos h]
  · rw [List.filter_cons_of_neg (by simpa using h), if_neg h, zero_add]

/-- The 12 within-year monthly group sums add up to the year's total,
provided every row's month lies in 1..12. -/
theorem sum_month_partition (company_df : List CompanyRow) (y : Int)
    (hmonth : ∀ r ∈ company_df, 1 ≤ r.month ∧ r.month ≤ 12) :
    (monthsList.map (fun m => yearMonthSum company_df y m)).sum =
      yearTotalSum company_df y := by
  induction company_df with
  | nil =>
      unfold yearMonthSum yearTotalSum
      simp
  | cons r rest ih =>
      have hr := hmonth r (List.mem_cons_self r rest)
      have hrest : ∀ q ∈ rest, 1 ≤ q.month ∧ q.month ≤ 12 :=
        fun q hq => hmonth q (List.mem_cons_of_mem r hq)
      have hpt : monthsList.map (fun m => yearMonthSum (r :: rest) y m) =
          monthsList.map (fun m =>
            (if r.year = y ∧ r.month = m then r.calls else 0) + yearMonthSum rest y m) :=
        List.map_congr_left (fun m _ => yearMonthSum_cons r rest y m)
      rw [hpt, List.sum_map_add, ih hrest, yearTotalSum_cons]
      congr 1
      by_cases hy : r.year = y
      · rw [if_pos hy]
        have h1 : monthsList.map (fun m => if r.year = y ∧ r.month = m then r.calls else 0) =
            monthsList.map (fun m => if r.month = m then r.calls else 0) :=
          List.map_congr_left (fun m _ => by simp [hy])
        rw [h1]
        exact sum_map_ite_key monthsList r.month r.calls (by decide)
          ((mem_monthsList r.month).2 hr)
      · rw [if_neg hy]
        apply List.sum_eq_zero
        intro q hq
        obtain ⟨m, hm, rfl⟩ := List.mem_map.1 hq
        rw [if_neg (fun hc => hy hc.1)]

/-- In percentage mode the annual table is, row by row, the within-year
percentage of each month's group sum (zero rows for zero-total years). -/
theorem calculate_annual_data_percentages (company_df : List CompanyRow)
    (h : ¬company_df.isEmpty = true) :
    calculate_annual_data company_df "percentages" =
      some ((intSort (company_df.map (fun r => r.year)).dedup).map (fun y =>
        (y, monthsList.map (fun m =>
          if 0 < yearTotalSum company_df y then
            yearMonthSum company_df y m / yearTotalSum company_df y * 100
          else 0)))) := by
  simp only [calculate_annual_data]
  rw [if_neg h]
  simp only [if_true]

/-- C6: every row of the percentage-mode annual table uses its own year's
total as denominator; a row sums exactly to 100 when that year's total is
positive and is the all-zero row when the total is 0 (months lie in 1..12
per the data model). -/
theorem c6_annual_rows (company_df : List CompanyRow) (table : List (Int × List ℚ))
    (hmonth : ∀ r ∈ company_df, 1 ≤ r.month ∧ r.month ≤ 12)
    (ht : calculate_annual_data company_df "percentages" = some table) :
    ∀ yrow ∈ table,
      (∀ idx < 12, yrow.2.getD idx 0 =
        (if 0 < yearTotalSum company_df yrow.1 then
          yearMonthSum company_df yrow.1 ((idx : Int) + 1) /
            yearTotalSum company_df yrow.1 * 100
        else 0)) ∧
      (0 < yearTotalSum company_df yrow.1 → yrow.2.sum = 100) ∧
      (yearTotalSum company_df yrow.1 = 0 → yrow.2 = List.replicate 12 0) := by
  by_cases hemp : company_df.isEmpty
  · rw [show calculate_annual_data company_df "percentages" = none from by
      simp only [calculate_annual_data]; rw [if_pos hemp]] at ht
    cases ht
  · rw [calculate_annual_data_percentages company_df hemp] at ht
    have ht2 := Option.some.inj ht
    intro yrow hmem
    rw [← ht2] at hmem
    obtain ⟨y, hy, hrw⟩ := List.mem_map.1 hmem
    subst hrw
    refine ⟨?_, ?_, ?_⟩
    · intro idx hidx
      have hlen : idx < (monthsList.map (fun m =>
          if 0 < yearTotalSum company_df y then
            yearMonthSum company_df y m / yearTotalSum company_df y * 100
          else 0)).length := by
        rw [List.length_map, monthsList_len]
        exact hidx
      rw [List.getD_eq_getElem _ _ hlen]
      rw [List.getElem_map]
      have h2 : idx < monthsList.length := by rw [monthsList_len]; exact hidx
      rw [show monthsList[idx] = (idx : Int) + 1 from by
        rw [← List.getD_eq_getElem monthsList 0 h2, monthsList_getD idx hidx]]
    · intro hyt
      have hrow : monthsList.map (fun m =>
          if 0 < yearTotalSum company_df y then
            yearMonthSum company_df y m / yearTotalSum company_df y * 100
          else 0) =
          monthsList.map (fun m =>
            yearMonthSum company_df y m * (100 / yearTotalSum company_df y)) := by
        apply List.map_congr_left
        intro m _
        rw [if_pos hyt]
        ring
      dsimp only
      rw [hrow, List.sum_map_mul_right, sum_month_partition company_df y hmonth]
      field_simp
    · intro hyt
      have hrow : monthsList.map (fun m =>
          if 0 < yearTotalSum company_df y then
            yearMonthSum company_df y m / yearTotalSum company_df y * 100
          else 0) =
          monthsList.map (fun _ => (0 : ℚ)) := by
        apply List.map_congr_left
        intro m _
        rw [if_neg (by rw [hyt]; exact lt_irrefl 0)]
      dsimp only
      rw [hrow]
      decide

/-! ### The company-row filter (`prepare_company_dataframe`) -/

/-- C7 (amended): building the company dataframe — and hence the full
analysis payload — compares identifiers as stringified values without
trimming, and the NotFound error is raised exactly when no row's
stringified id equals the stringified requested id. -/
theorem c7_notfound_iff (calls_df : List CompanyRow) (company_id : CellVal)
    (detection_method analysis_mode : Option String) :
    ((prepare_company_dataframe calls_df company_id).isOk = true ↔
      ∃ r ∈ calls_df, pyStr r.company_id = pyStr company_id) ∧
    ((build_analysis_payload calls_df company_id
        detection_method analysis_mode).isOk = true ↔
      ∃ r ∈ calls_df, pyStr r.company_id = pyStr company_id) := by
  have hpre : (prepare_company_dataframe calls_df company_id).isOk = true ↔
      ∃ r ∈ calls_df, pyStr r.company_id = pyStr company_id := by
    unfold prepare_company_dataframe
    by_cases hemp : (calls_df.filter
        (fun r => pyStr r.company_id = pyStr company_id)).isEmpty
    · rw [if_pos hemp]
      rw [List.isEmpty_iff] at hemp
      constructor
      · intro habs
        simp [Except.isOk, Except.toBool] at habs
      · rintro ⟨r, hr, heq⟩
        exfalso
        have hmem : r ∈ calls_df.filter (fun r => pyStr r.company_id = pyStr company_id) := by
          rw [List.mem_filter]
          exact ⟨hr, by simpa using heq⟩
        rw [hemp] at hmem
        cases hmem
    · rw [if_neg hemp]
      rw [List.isEmpty_iff] at hemp
      constructor
      · intro _
        obtain ⟨r, hr⟩ := List.exists_mem_of_ne_nil _ hemp
        rw [List.mem_filter] at hr
        exact ⟨r, hr.1, by simpa using hr.2⟩
      · intro _
        rfl
  refine ⟨hpre, ?_⟩
  unfold build_analysis_payload
  rcases hp : prepare_company_dataframe calls_df company_id with e | pair
  · rw [hp] at hpre
    simpa [Except.isOk, Except.toBool] using hpre
  · rw [hp] at hpre
    simpa [Except.isOk, Except.toBool] using hpre

/-! ### The dataframe store: copy-then-mutate (`prepare_company_dataframe`
at the reference level) -/

theorem getTable_setTable_ne (s : Store) (i j : Nat) (t : List RawRow) (h : j ≠ i) :
    (s.setTable i t).getTable j = s.getTable j := by
  unfold Store.setTable Store.getTable
  rw [List.getD_eq_getElem?_getD, List.getD_eq_getElem?_getD,
    List.getElem?_set_ne (fun hh => h hh.symm)]

theorem getTable_setTable_self (s : Store) (i : Nat) (t : List RawRow)
    (hi : i < s.tables.length) :
    (s.setTable i t).getTable i = t := by
  unfold Store.setTable Store.getTable
  rw [List.getD_eq_getElem?_getD, List.getElem?_set_eq hi]
  rfl

theorem getTable_alloc_lt (s : Store) (t : List RawRow) (j : Nat)
    (h : j < s.tables.length) :
    (s.alloc t).1.getTable j = s.getTable j := by
  unfold Store.alloc Store.getTable
  exact List.getD_append _ _ _ _ h

theorem getTable_alloc_self (s : Store) (t : List RawRow) :
    (s.alloc t).1.getTable s.tables.length = t := by
  unfold Store.alloc Store.getTable
  rw [List.getD_append_right _ _ _ _ (le_refl _)]
  simp

/-- What a successful stateful `prepare_company_dataframe` guarantees: the
returned handle is the freshly allocated slot, every pre-existing table is
untouched, and the new slot holds exactly the `astype`-converted copy of
the filtered rows. -/
theorem prepare_st_spec (s : Store) (r : Nat) (cid : CellVal)
    (res : Store × Nat × String)
    (h : prepare_company_dataframe_st s r cid = Except.ok res) :
    res.2.1 = s.tables.length ∧
    res.2.2 = pyStr cid ∧
    (∀ q, q < s.tables.length → res.1.getTable q = s.getTable q) ∧
    (astypeYearInt ((s.getTable r).filter
        (fun row => pyStr row.company_id = pyStr cid))).bind
      (fun t1 => (astypeMonthInt t1).bind (fun t2 => astypeCallsFloat t2)) =
      Except.ok (res.1.getTable res.2.1) := by
  unfold prepare_company_dataframe_st at h
  by_cases hemp : ((s.getTable r).filter
      (fun row => pyStr row.company_id = pyStr cid)).isEmpty
  · rw [if_pos hemp] at h
    cases h
  · rw [if_neg hemp] at h
    dsimp only at h
    have halloc2 : (s.alloc ((s.getTable r).filter
        (fun row => pyStr row.company_id = pyStr cid))).2 = s.tables.length := rfl
    rw [halloc2, getTable_alloc_self s _] at h
    rcases hY : astypeYearInt ((s.getTable r).filter
        (fun row => pyStr row.company_id = pyStr cid)) with e | t1
    · rw [hY] at h
      cases h
    · rw [hY] at h
      dsimp only at h
      have hlen1 : s.tables.length < ((s.alloc ((s.getTable r).filter
          (fun row => pyStr row.company_id = pyStr cid))).1).tables.length := by
        unfold Store.alloc
        simp
      rw [getTable_setTable_self _ _ _ hlen1] at h
      rcases hM : astypeMonthInt t1 with e | t2
      · rw [hM] at h
        cases h
      · rw [hM] at h
        dsimp only at h
        have hlen2 : s.tables.length < (((s.alloc ((s.getTable r).filter
            (fun row => pyStr row.company_id = pyStr cid))).1).setTable
              s.tables.length t1).tables.length := by
          unfold Store.setTable Store.alloc
          simp
        rw [getTable_setTable_self _ _ _ hlen2] at h
        rcases hC : astypeCallsFloat t2 with e | t3
        · rw [hC] at h
          cases h
        · rw [hC] at h
          dsimp only at h
          have hres := (Except.ok.inj h).symm
          subst hres
          have hlen3 : s.tables.length < ((((s.alloc ((s.getTable r).filter
              (fun row => pyStr row.company_id = pyStr cid))).1).setTable
                s.tables.length t1).setTable s.tables.length t2).tables.length := by
            unfold Store.setTable Store.alloc
            simp
          refine ⟨rfl, rfl, ?_, ?_⟩
          · intro q hq
            show ((((s.alloc _).1.setTable s.tables.length t1).setTable
                s.tables.length t2).setTable s.tables.length t3).getTable q =
              s.getTable q
            rw [getTable_setTable_ne _ _ _ _ (by omega),
              getTable_setTable_ne _ _ _ _ (by omega),
              getTable_setTable_ne _ _ _ _ (by omega),
              getTable_alloc_lt _ _ _ hq]
          · show (astypeMonthInt t1).bind (fun t2 => astypeCallsFloat t2) = _
            rw [hM]
            show astypeCallsFloat t2 = _
            rw [hC]
            congr 1
            exact (getTable_setTable_self _ _ _ hlen3).symm

/-- C10: when the stateful analysis succeeds, the cached table it was given
is byte-for-byte unchanged afterwards (the filtered rows are copied into a
fresh slot before the `astype` column writes), and a repeated run against
the same handle produces the identical payload. -/
theorem c10_frame_preservation (s : Store) (r : Nat) (cid : CellVal)
    (dm am : Option String) (out : Store × AnalysisPayload)
    (hr : r < s.tables.length)
    (h : build_analysis_payload_st s r cid dm am = Except.ok out) :
    out.1.getTable r = s.getTable r ∧
    ∀ out2 : Store × AnalysisPayload,
      build_analysis_payload_st out.1 r cid dm am = Except.ok out2 →
      out2.2 = out.2 := by
  unfold build_analysis_payload_st at h
  rcases hp : prepare_company_dataframe_st s r cid with e | res
  · rw [hp] at h
    cases h
  · rw [hp] at h
    have hout := (Except.ok.inj h).symm
    subst hout
    obtain ⟨hrc, hcid, hpres, hchain⟩ := prepare_st_spec s r cid res hp
    constructor
    · exact hpres r hr
    · intro out2 h2
      unfold build_analysis_payload_st at h2
      rcases hp2 : prepare_company_dataframe_st res.1 r cid with e2 | res2
      · rw [hp2] at h2
        cases h2
      · rw [hp2] at h2
        have hout2 := (Except.ok.inj h2).symm
        subst hout2
        obtain ⟨hrc2, hcid2, hpres2, hchain2⟩ := prepare_st_spec res.1 r cid res2 hp2
        have hft : res.1.getTable r = s.getTable r := hpres r hr
        rw [hft] at hchain2
        have heq : res2.1.getTable res2.2.1 = res.1.getTable res.2.1 := by
          rw [hchain] at hchain2
          exact (Except.ok.inj hchain2).symm
        show payload_from_company_df ((res2.1.getTable res2.2.1).map toCompanyRow)
            res2.2.2 _ _ =
          payload_from_company_df ((res.1.getTable res.2.1).map toCompanyRow) res.2.2 _ _
        rw [heq, hcid2, hcid]

/-! ## Witnesses and counterexamples on concrete inputs

The arithmetic operations of `Rat` are `@[irreducible]` in the ambient
library; inside this section they are made semireducible again so that the
kernel can evaluate the embedded pipeline on the concrete scenario
inputs. -/

section

attribute [local semireducible] Rat.add Rat.mul Rat.inv Rat.sub

/-- C5 (amended): the Mathematical Strict ranking sorts the months by
ascending percentage with ties kept in original month order (numpy's
argsort degrades to stable insertion sort at this size); consequently, in
the §8 scenario (months 1–11 tied, month 12 largest) the peaks are month 12
plus the latest tied month (month 11), and the valleys are the two earliest
tied months (months 1 and 2). -/
theorem c5_stable_rank_selection (x : List ℚ) :
    List.Pairwise (lexLt x) (argsort x) ∧
    (build_analysis_payload c5Rows (CellVal.strV "C1") (some "Mathematical Strict")
        none).toOption.map (fun p => (p.peak_months, p.valley_months)) =
      some ([11, 12], [1, 2]) :=
  ⟨argsort_sorted x, by decide⟩

/-- C5 counterexample: in the §8 scenario the computed peak months are 11
and 12; month 1 — the earliest tied month, which the claim designates as
the second peak — is not among them. -/
theorem c5_counterexample :
    (build_analysis_payload c5Rows (CellVal.strV "C1") (some "Mathematical Strict")
        none).toOption.map (fun p => p.peak_months) = some [11, 12] ∧
    (1 : Int) ∉ ([11, 12] : List Int) := by
  exact ⟨by decide, by decide⟩

/-- C3 counterexample: in `c3Series` month 12 (index 11) strictly exceeds
the series mean and is a boundary local maximum in the spec's sense, yet
the Original method reports no peak at it. -/
theorem c3_counterexample :
    npMean c3Series < c3Series.getD 11 0 ∧ specLocalMax c3Series 2 11 ∧
    11 ∉ (detect_inflection_points c3Series (some "Original (find_peaks)")).1 := by
  exact ⟨by decide, by decide, by decide⟩

/-- C7 counterexample: the only row of `c7Table` matches the request `"7"`
under the spec's trimmed comparison, yet `prepare_company_dataframe`
raises the NotFound error. -/
theorem c7_counterexample :
    (∃ r ∈ c7Table, specTrimmedMatch r.company_id (CellVal.strV "7")) ∧
    (prepare_company_dataframe c7Table (CellVal.strV "7")).isOk = false := by
  exact ⟨by decide, by decide⟩

/-- Witness for C1 at the concrete series `c1Series`. -/
theorem c1_witness :
    4 ≤ c1Series.length ∧
    (detect_inflection_points c1Series (some "Mathematical Strict")).1.length = 2 ∧
    (detect_inflection_points c1Series (some "Mathematical Strict")).2.length = 2 := by
  have h := c1_strict_two_peaks_two_valleys c1Series (by decide)
  exact ⟨by decide, h.1, h.2.1⟩

/-- Witness for C2: the positive-total branch at `c2Rows` and the zero
branch at the empty row set. -/
theorem c2_witness :
    (calculate_monthly_metrics c2Rows).2.2.1.sum = 100 ∧
    (calculate_monthly_metrics ([] : List CompanyRow)).2.2.1 = List.replicate 12 0 := by
  exact ⟨((c2_monthly_percentages c2Rows).1 (by decide)).2,
    (c2_monthly_percentages []).2 (by decide)⟩

/-- Witness for C4: applied to the peaks 1 and 4 of `c4Series` under both
Original and Hybrid. -/
theorem c4_witness :
    2 ≤ (((1 : Nat) : Int) - ((4 : Nat) : Int)).natAbs ∧
    3 ≤ (((1 : Nat) : Int) - ((4 : Nat) : Int)).natAbs := by
  have h := c4_min_separation c4Series
  exact ⟨h.2.1 1 4 (by decide) (by decide) (by decide),
    h.2.2.2.1 1 4 (by decide) (by decide) (by decide)⟩

/-- Witness for C6 at `c6Rows`: the 2022 row sums to 100 and the zero-total
2024 row is all zeros. -/
theorem c6_witness :
    ((2022, [(25 : ℚ), 75, 0, 0, 0, 0, 0, 0, 0, 0, 0, 0]) : Int × List ℚ).2.sum = 100 ∧
    ((2024, List.replicate 12 (0 : ℚ)) : Int × List ℚ).2 = List.replicate 12 0 := by
  have h := c6_annual_rows c6Rows
    [(2022, [25, 75, 0, 0, 0, 0, 0, 0, 0, 0, 0, 0]), (2024, List.replicate 12 0)]
    (by decide) (by decide)
  exact ⟨(h (2022, [25, 75, 0, 0, 0, 0, 0, 0, 0, 0, 0, 0]) (by decide)).2.1 (by decide),
    (h (2024, List.replicate 12 0) (by decide)).2.2 (by decide)⟩

/-- Witness for C8 at the unrecognized string `"foo"` and the series
`c4Series`. -/
theorem c8_witness :
    normalize_detection_method (some "foo") = "Hybrid (3-4 months)" ∧
    detect_inflection_points c4Series (some "foo") =
      detect_inflection_points c4Series (some "Hybrid (3-4 months)") := by
  have h := c8_unrecognized_defaults.2 "foo" (by decide)
  exact ⟨h.1, h.2 c4Series⟩

/-- Witness for C10 at the one-table store `c10Store`. -/
theorem c10_witness :
    (build_analysis_payload_st c10Store 0 (CellVal.intV 7) none none).toOption.map
      (fun out => out.1.getTable 0) = some (c10Store.getTable 0) := by
  rcases hE : build_analysis_payload_st c10Store 0 (CellVal.intV 7) none none with e | out
  · have hok : (build_analysis_payload_st c10Store 0 (CellVal.intV 7) none none).isOk =
        true := by decide
    rw [hE] at hok
    simp [Except.isOk, Except.toBool] at hok
  · have h := c10_frame_preservation c10Store 0 (CellVal.intV 7) none none out
      (by decide) hE
    show some (out.1.getTable 0) = some (c10Store.getTable 0)
    rw [h.1]

end

end DSPortal
